import Mathlib

/-!
Shallow embedding of the gibberish classifier from `src/lib.rs` of the
`english-or-not` repository (crate `gibberish_or_not`).

Texts are embedded as `List Char`.  Rust `f64` score arithmetic is embedded
as exact rational arithmetic over `ℚ` (all constants of the program are
decimal literals, and every comparison settled below is robust: it never
hinges on a value closer to a threshold than the rounding error of any
`f64` computation of the same expression).  The Shannon-entropy feature is
embedded over `ℝ`, since it is the only place the program leaves the
rationals (`f64::log2`).

The dictionary corpus (`dictionary::ENGLISH_WORDS`, file `src/dictionary.rs`)
is not part of the sources; following the specification it is the external
Lexical Oracle, and it is modelled as an abstract membership predicate
`dict : List Char → Bool` threaded through every definition that the source
code reaches through `is_english_word`.

Rust's `str::to_lowercase` (Unicode) is modelled per character by the ASCII
lowering `to_ascii_lowercase`; every string the classifier feeds to it on the
paths analysed here is ASCII (output of `clean_text`), and the concrete
inputs used in witnesses and counterexamples are ASCII, where the two
coincide.  `char::is_numeric` is likewise modelled by the ASCII `Char.isDigit`
test, and `char::is_alphabetic` by `Char.isAlpha`, faithful on ASCII input.
-/

namespace EnglishOrNot

/-- The three strictness levels of `Sensitivity` in `src/lib.rs`. -/
inductive Sensitivity where
  | High
  | Medium
  | Low
deriving DecidableEq

/-- Membership in the `ENGLISH_LETTERS` set of `src/lib.rs` (the 26 ASCII
letters in both cases). -/
def isEngLetter (c : Char) : Bool :=
  ('A' ≤ c && c ≤ 'Z') || ('a' ≤ c && c ≤ 'z')

/-- Rust's `char::to_ascii_lowercase`: shift `A`-`Z` down into `a`-`z`,
leave everything else unchanged. -/
def to_ascii_lowercase (c : Char) : Char :=
  if 'A' ≤ c && c ≤ 'Z' then Char.ofNat (c.toNat + 32) else c

/-- The per-character mapping of `clean_text` in `src/lib.rs`: ASCII
letters and digits are lowercased, whitespace becomes a space, and every
remaining character also becomes a space (the source's final two branches
both produce `' '`). -/
def cleanChar (c : Char) : Char :=
  if isEngLetter c || c.isDigit then to_ascii_lowercase c
  else if c.isWhitespace then ' '
  else ' '

/-- The normalizer `clean_text` of `src/lib.rs`. -/
def clean_text (t : List Char) : List Char :=
  t.map cleanChar

/-- Helper for `runs`: returns the run of `p`-characters at the head of the
processed suffix together with the finished runs after it. -/
def runsAux (p : Char → Bool) : List Char → List Char × List (List Char)
  | [] => ([], [])
  | c :: cs =>
    let st := runsAux p cs
    if p c then (c :: st.1, st.2)
    else ([], if st.1.isEmpty then st.2 else st.1 :: st.2)

/-- The maximal runs of characters satisfying `p`, in order, without empty
runs.  `runs (fun c => !c.isWhitespace)` is Rust's `str::split_whitespace`. -/
def runs (p : Char → Bool) (l : List Char) : List (List Char) :=
  let st := runsAux p l
  if st.1.isEmpty then st.2 else st.1 :: st.2

/-- Rust's `str::split_whitespace` on a character list. -/
def split_whitespace (l : List Char) : List (List Char) :=
  runs (fun c => !c.isWhitespace) l

/-- All contiguous length-`n` windows of a list (Rust's `slice::windows`,
which is empty when the list is shorter than `n`). -/
def windows (n : Nat) (l : List Char) : List (List Char) :=
  (List.range (l.length + 1 - n)).map (fun i => (l.drop i).take n)

/-- The filter closure inside `generate_ngrams` of `src/lib.rs`: keep
letters and digits, turn everything else into a space. -/
def ngramChar (c : Char) : Char :=
  if isEngLetter c || c.isDigit then c else ' '

/-- The extractor `generate_ngrams` of `src/lib.rs`: lowercase, replace non-letter/digit
characters by spaces, split on whitespace, and emit all length-`n` windows
of each token.  The source windows over bytes; on the ASCII strings the
classifier passes here, byte windows and character windows coincide. -/
def generate_ngrams (t : List Char) (n : Nat) : List (List Char) :=
  let filtered := (t.map to_ascii_lowercase).map ngramChar
  (split_whitespace filtered).flatMap (fun w => windows n w)

/-- The `COMMON_CHAR_PAIRS` reference set of `src/lib.rs` (50 bigrams). -/
def COMMON_CHAR_PAIRS : List (List Char) :=
  ["th", "he", "in", "er", "an", "re", "on", "at", "en", "nd",
   "ti", "es", "or", "te", "of", "ed", "is", "it", "al", "ar",
   "st", "to", "nt", "ng", "se", "ha", "as", "ou", "io", "le",
   "ve", "co", "me", "de", "hi", "ri", "ro", "ic", "ne", "ea",
   "ra", "ce", "li", "ch", "ll", "be", "ma", "si", "om", "ur"].map String.toList

/-- The `COMMON_TRIGRAMS` reference set of `src/lib.rs` (50 trigrams). -/
def COMMON_TRIGRAMS : List (List Char) :=
  ["the", "and", "ing", "ion", "tio", "ent", "ati", "for", "her", "ter",
   "hat", "tha", "ere", "con", "res", "ver", "all", "ons", "nce", "men",
   "ith", "ted", "ers", "pro", "thi", "wit", "are", "ess", "not", "ive",
   "was", "ect", "rea", "com", "eve", "per", "int", "est", "sta", "cti",
   "ica", "ist", "ear", "ain", "one", "our", "iti", "rat", "ell", "ant"].map String.toList

/-- The `COMMON_QUADGRAMS` reference set of `src/lib.rs` (24 quadgrams). -/
def COMMON_QUADGRAMS : List (List Char) :=
  ["tion", "atio", "that", "ther", "with", "ment", "ions", "this",
   "here", "from", "ould", "ting", "hich", "whic", "ctio", "ever",
   "they", "thin", "have", "othe", "were", "tive", "ough", "ight"].map String.toList

/-- The token list of `is_gibberish`: the cleaned text split on whitespace
(the source additionally filters out empty tokens). -/
def words_of (t : List Char) : List (List Char) :=
  (split_whitespace (clean_text t)).filter (fun w => !w.isEmpty)

/-- The count `english_word_count` of `is_gibberish`: how many tokens the dictionary
recognizes. -/
def english_word_count (dict : List Char → Bool) (t : List Char) : Nat :=
  ((words_of t).filter (fun w => dict w)).length

/-- The ratio `english_word_ratio` of `is_gibberish`: recognized tokens over total
tokens, `0` when there are no tokens. -/
def english_word_ratio (dict : List Char → Bool) (t : List Char) : ℚ :=
  if (words_of t).isEmpty then 0
  else (english_word_count dict t : ℚ) / ((words_of t).length : ℚ)

/-- The counter `non_printable_count` of `is_gibberish`: characters below `' '` other
than newline, carriage return and tab, counted over the original text. -/
def non_printable_count (t : List Char) : Nat :=
  (t.filter (fun c => decide (c < ' ') && !(c == '\n') && !(c == '\r') && !(c == '\t'))).length

/-- The function `calculate_transition_score` of `src/lib.rs`: the fraction of adjacent
character pairs of the lowercased text that belong to `COMMON_CHAR_PAIRS`
(`0` on texts shorter than two characters).  The source's index loop over
`chars[i], chars[i+1]` is embedded as a zip with the tail. -/
def calculate_transition_score (t : List Char) : ℚ :=
  let chars := t.map to_ascii_lowercase
  if chars.length < 2 then 0
  else
    let valid := ((chars.zip chars.tail).filter
      (fun p => decide ([p.1, p.2] ∈ COMMON_CHAR_PAIRS))).length
    (valid : ℚ) / ((chars.length - 1 : Nat) : ℚ)

/-- The vowel counter of `calculate_vowel_consonant_ratio`. -/
def vowel_count (t : List Char) : Nat :=
  (t.filter (fun c => decide (c ∈ ['a', 'e', 'i', 'o', 'u']))).length

/-- The consonant counter of `calculate_vowel_consonant_ratio`: alphabetic
characters that are not (lowercase) vowels. -/
def consonant_count (t : List Char) : Nat :=
  (t.filter (fun c => !(decide (c ∈ ['a', 'e', 'i', 'o', 'u'])) && c.isAlpha)).length

/-- The function `calculate_vowel_consonant_ratio` of `src/lib.rs`. -/
def calculate_vowel_consonant_ratio (t : List Char) : ℚ :=
  let v := vowel_count t
  let k := consonant_count t
  if k = 0 then (if v = 0 then 0 else 1)
  else (v : ℚ) / ((v + k : Nat) : ℚ)

/-- The n-gram scoring of `is_gibberish`: grams of the cleaned text that
belong to the reference set, over all grams, `0` when there are none. -/
def ngram_score (refset : List (List Char)) (n : Nat) (t : List Char) : ℚ :=
  let grams := generate_ngrams (clean_text t) n
  if grams.isEmpty then 0
  else ((grams.filter (fun g => decide (g ∈ refset))).length : ℚ) / (grams.length : ℚ)

/-- The `trigram_score` of `is_gibberish`. -/
def trigram_score (t : List Char) : ℚ :=
  ngram_score COMMON_TRIGRAMS 3 t

/-- The `quadgram_score` of `is_gibberish`. -/
def quadgram_score (t : List Char) : ℚ :=
  ngram_score COMMON_QUADGRAMS 4 t

/-- The `composite_score` of `is_gibberish`, accumulated in the source's order:
word ratio, transition score, trigram and quadgram scores, and the
vowel-consonant bonus granted when the ratio lies in `[0.3, 0.7]`. -/
def composite_score (dict : List Char → Bool) (t : List Char) : ℚ :=
  0 + english_word_ratio dict t * 0.4
    + calculate_transition_score t * 0.25
    + trigram_score t * 0.15
    + quadgram_score t * 0.1
    + (if 0.3 ≤ calculate_vowel_consonant_ratio (clean_text t) ∧
          calculate_vowel_consonant_ratio (clean_text t) ≤ 0.7 then (0.1 : ℚ) else 0)

/-- The `length_factor` table of `is_gibberish`. -/
def length_factor (n : Nat) : ℚ :=
  if n ≤ 20 then 0.7
  else if n ≤ 50 then 0.8
  else if n ≤ 100 then 0.9
  else if n ≤ 200 then 1.0
  else 1.1

/-- The per-sensitivity base threshold of `is_gibberish`. -/
def base_threshold (s : Sensitivity) : ℚ :=
  match s with
  | .Low => 0.35
  | .Medium => 0.25
  | .High => 0.15

/-- The classifier `is_gibberish` of `src/lib.rs`, with the dictionary corpus abstracted
as `dict`.  The source also computes `calculate_entropy` on this path and
discards the result; the unused binding is omitted here. -/
def is_gibberish (dict : List Char → Bool) (text : List Char) (s : Sensitivity) : Bool :=
  let cleaned := clean_text text
  if cleaned.isEmpty then true
  else if cleaned.length < 10 then !(dict cleaned)
  else if 0 < non_printable_count text then true
  else if english_word_ratio dict text > 0.8 then false
  else if 3 ≤ english_word_count dict text ∧ s ≠ Sensitivity.Low then false
  else if english_word_count dict text = 0 ∧ calculate_transition_score text < 0.3 ∧
          s ≠ Sensitivity.High then true
  else decide (composite_score dict text < base_threshold s * length_factor cleaned.length)

/-- The function `calculate_entropy` of `src/lib.rs` over `ℝ`: lowercase the text, take
the per-character frequency distribution, accumulate `-(p * log2 p)` over
the distinct characters, then rescale by `5` and cap at `1` (the source's
`(entropy / 5.0).min(1.0)`).  The hash-map iteration of the source is
order-insensitive, so it is embedded as a sum over the deduplicated
character list. -/
noncomputable def calculate_entropy (t : List Char) : ℝ :=
  let lowered := t.map to_ascii_lowercase
  if lowered.length = 0 then 0
  else
    let e := (lowered.dedup.map (fun c =>
      -(((lowered.count c : ℝ) / (lowered.length : ℝ)) *
        Real.logb 2 ((lowered.count c : ℝ) / (lowered.length : ℝ))))).sum
    min (e / 5) 1

/-!  Specification-side definitions.  Each follows the wording of the spec
(or of the claim under scrutiny), to be compared with the code-side
definitions above. -/

/-- Shannon entropy in base-2 bits per character of the character-frequency
distribution of a string, exactly as the spec words it: `H = -∑ p·log2 p`
over the distinct characters, with `p` the relative frequency. -/
noncomputable def shannonEntropy (t : List Char) : ℝ :=
  -(∑ c ∈ t.toFinset, ((t.count c : ℝ) / (t.length : ℝ)) *
      Real.logb 2 ((t.count c : ℝ) / (t.length : ℝ)))

/-- Claim C4's normalizer: ASCII letters and digits lowercased; whitespace,
underscore, hyphen, slash and sentence punctuation become a separator
space; every other character is kept (lowercased where applicable). -/
def specCleanChar (c : Char) : Char :=
  if (c.isAlpha || c.isDigit) = true then to_ascii_lowercase c
  else if c.isWhitespace = true ∨ c ∈ ['_', '-', '/'] ∨ c ∈ [',', '.', '!', '?'] then ' '
  else c

/-- The normalizer as claim C4 describes it, character by character. -/
def specClean (t : List Char) : List Char :=
  t.map specCleanChar

/-- The spec's n-gram tokenizer: the maximal runs of letters/digits of the
normalized string. -/
def specTokens (s : List Char) : List (List Char) :=
  runs (fun c => isEngLetter c || c.isDigit) s

/-- The spec's n-gram extractor: every token of length at least `n`
contributes all its contiguous length-`n` substrings (sliding by one,
duplicates counted); shorter tokens contribute none. -/
def specNgrams (n : Nat) (s : List Char) : List (List Char) :=
  (specTokens s).flatMap (fun tok => if n ≤ tok.length then windows n tok else [])

/-- The spec's frequency scorer: extracted n-grams of the normalized text
that lie in the reference set, over all extracted n-grams, `0.0` when none
were extracted. -/
def specNgramScore (refset : List (List Char)) (n : Nat) (t : List Char) : ℚ :=
  let grams := specNgrams n (clean_text t)
  if grams.length = 0 then 0
  else ((grams.filter (fun g => decide (g ∈ refset))).length : ℚ) / (grams.length : ℚ)

/-- The transition score as the spec words it: the fraction of adjacent
character pairs (length-2 windows, word boundaries included) of the
lowercased text that belong to the bigram reference set. -/
def specTransitionScore (t : List Char) : ℚ :=
  let cs := t.map to_ascii_lowercase
  if cs.length < 2 then 0
  else (((windows 2 cs).filter (fun g => decide (g ∈ COMMON_CHAR_PAIRS))).length : ℚ) /
    ((cs.length - 1 : Nat) : ℚ)

/-- Claim C6's word ratio: recognized tokens over total token count, `0`
when there are no tokens. -/
def specWordRatio (dict : List Char → Bool) (t : List Char) : ℚ :=
  if (words_of t).length = 0 then 0
  else (english_word_count dict t : ℚ) / ((words_of t).length : ℚ)

/-- Claim C6's vowel fraction of the normalized text: vowels over vowels
plus consonants (`0` for `0/0`, by the spec's degenerate-ratio rule). -/
def specVowelFrac (t : List Char) : ℚ :=
  (vowel_count (clean_text t) : ℚ) /
    ((vowel_count (clean_text t) + consonant_count (clean_text t) : Nat) : ℚ)

/-- Claim C6's vowel-consonant bonus: `1` exactly when the vowel fraction
lies in `[0.3, 0.7]`, else `0`. -/
def specVowelBonus (t : List Char) : ℚ :=
  if 0.3 ≤ specVowelFrac t ∧ specVowelFrac t ≤ 0.7 then 1 else 0

/-- Unicode's control-character category `Cc` (the claim C3 notion of a
control character): the C0 range below U+0020, DEL, and the C1 range
U+0080 to U+009F. -/
def unicodeControl (c : Char) : Bool :=
  decide (c.toNat < 32) || decide (c.toNat = 127) ||
    (decide (128 ≤ c.toNat) && decide (c.toNat ≤ 159))

/-!  Character-level lemmas. -/

theorem charLe_iff {a b : Char} : a ≤ b ↔ a.toNat ≤ b.toNat := by
  rw [Char.le_def, UInt32.le_def, BitVec.le_def]; rfl

theorem charLt_iff {a b : Char} : a < b ↔ a.toNat < b.toNat := by
  rw [Char.lt_def, UInt32.lt_def, BitVec.lt_def]; rfl

theorem toNat_ofNat_valid {n : Nat} (h : n < 55296) : (Char.ofNat n).toNat = n := by
  have hv : n.isValidChar := Or.inl h
  rw [Char.ofNat, dif_pos hv]
  rfl

theorem engLetter_iff {c : Char} :
    isEngLetter c = true ↔ (65 ≤ c.toNat ∧ c.toNat ≤ 90) ∨ (97 ≤ c.toNat ∧ c.toNat ≤ 122) := by
  simp [isEngLetter, charLe_iff]

theorem isDigit_iff {c : Char} :
    c.isDigit = true ↔ 48 ≤ c.toNat ∧ c.toNat ≤ 57 := by
  simp [Char.isDigit, UInt32.le_def, BitVec.le_def]
  rfl

theorem isWhitespace_iff {c : Char} :
    c.isWhitespace = true ↔ c.toNat = 32 ∨ c.toNat = 9 ∨ c.toNat = 13 ∨ c.toNat = 10 := by
  constructor
  · intro h
    simp [Char.isWhitespace] at h
    rcases h with ((h | h) | h) | h <;> subst h <;> simp
  · intro h
    have : c = ' ' ∨ c = '\t' ∨ c = '\r' ∨ c = '\n' := by
      rcases h with h | h | h | h
      · left; apply Char.ext; apply UInt32.ext; exact h
      · right; left; apply Char.ext; apply UInt32.ext; exact h
      · right; right; left; apply Char.ext; apply UInt32.ext; exact h
      · right; right; right; apply Char.ext; apply UInt32.ext; exact h
    simp [Char.isWhitespace]
    tauto

theorem lower_of_upper {c : Char} (h : 65 ≤ c.toNat ∧ c.toNat ≤ 90) :
    (to_ascii_lowercase c).toNat = c.toNat + 32 := by
  have hc : ('A' ≤ c && c ≤ 'Z') = true := by
    simp [charLe_iff]
    exact ⟨h.1, h.2⟩
  rw [to_ascii_lowercase, if_pos hc]
  exact toNat_ofNat_valid (by omega)

theorem lower_fix {c : Char} (h : ¬(65 ≤ c.toNat ∧ c.toNat ≤ 90)) :
    to_ascii_lowercase c = c := by
  have hc : ('A' ≤ c && c ≤ 'Z') = false := by
    rw [Bool.and_eq_false_iff]
    by_cases h1 : 65 ≤ c.toNat
    · right
      have : ¬ c.toNat ≤ 90 := fun hh => h ⟨h1, hh⟩
      simp [charLe_iff]
      omega
    · left
      simp [charLe_iff]
      omega
  rw [to_ascii_lowercase, if_neg (by simp [hc])]

/-- Classification of the characters a cleaned text consists of: a space,
a lowercase letter, or a digit. -/
def cleanedOK (d : Char) : Prop :=
  d = ' ' ∨ (97 ≤ d.toNat ∧ d.toNat ≤ 122) ∨ (48 ≤ d.toNat ∧ d.toNat ≤ 57)

theorem cleanChar_ok (c : Char) : cleanedOK (cleanChar c) := by
  unfold cleanChar cleanedOK
  by_cases h : (isEngLetter c || c.isDigit) = true
  · rw [if_pos h]
    rcases Bool.or_eq_true _ _ |>.mp h with hL | hD
    · rcases engLetter_iff.mp hL with hU | hl
      · right; left
        rw [lower_of_upper hU]
        omega
      · right; left
        rw [lower_fix (by omega)]
        omega
    · right; right
      have hd := isDigit_iff.mp hD
      rw [lower_fix (by omega)]
      omega
  · rw [if_neg h]
    left
    split <;> rfl

theorem clean_text_ok {t : List Char} : ∀ d ∈ clean_text t, cleanedOK d := by
  intro d hd
  rcases List.mem_map.mp hd with ⟨c, _, hc⟩
  rw [← hc]
  exact cleanChar_ok c

theorem cleanedOK_lower_fix {d : Char} (h : cleanedOK d) : to_ascii_lowercase d = d := by
  rcases h with h | h | h
  · subst h; rfl
  · exact lower_fix (by omega)
  · exact lower_fix (by omega)

theorem cleanedOK_engOrDigit {d : Char} (h : cleanedOK d) (hne : d ≠ ' ') :
    (isEngLetter d || d.isDigit) = true := by
  rcases h with h | h | h
  · exact absurd h hne
  · simp [engLetter_iff]
    omega
  · simp [isDigit_iff]
    omega

theorem cleanedOK_ngramChar {d : Char} (h : cleanedOK d) : ngramChar d = d := by
  by_cases hne : d = ' '
  · subst hne; rfl
  · rw [ngramChar, if_pos (cleanedOK_engOrDigit h hne)]

theorem cleanedOK_notWhitespace_iff {d : Char} (h : cleanedOK d) :
    (!d.isWhitespace) = (isEngLetter d || d.isDigit) := by
  rcases h with h | h | h
  · subst h; rfl
  · have h1 : d.isWhitespace = false := by
      rw [Bool.eq_false_iff]
      intro hw
      rcases isWhitespace_iff.mp hw with hh | hh | hh | hh <;> omega
    have h2 : isEngLetter d = true := by
      rw [engLetter_iff]; omega
    simp [h1, h2]
  · have h1 : d.isWhitespace = false := by
      rw [Bool.eq_false_iff]
      intro hw
      rcases isWhitespace_iff.mp hw with hh | hh | hh | hh <;> omega
    have h2 : d.isDigit = true := by
      rw [isDigit_iff]; omega
    simp [h1, h2]

/-!  List-level lemmas. -/

theorem runsAux_congr {p q : Char → Bool} : ∀ {l : List Char},
    (∀ c ∈ l, p c = q c) → runsAux p l = runsAux q l
  | [], _ => rfl
  | c :: cs, h => by
    have ih := runsAux_congr (p := p) (q := q) (l := cs)
      (fun d hd => h d (List.mem_cons_of_mem _ hd))
    simp only [runsAux, ih, h c (List.mem_cons_self _ _)]

theorem runs_congr {p q : Char → Bool} {l : List Char}
    (h : ∀ c ∈ l, p c = q c) : runs p l = runs q l := by
  unfold runs
  rw [runsAux_congr h]

theorem windows_eq_nil {n : Nat} {l : List Char} (h : l.length < n) : windows n l = [] := by
  unfold windows
  have h0 : l.length + 1 - n = 0 := by omega
  rw [h0]
  rfl

theorem windows_two : ∀ (l : List Char),
    windows 2 l = (l.zip l.tail).map (fun p => [p.1, p.2])
  | [] => rfl
  | [a] => rfl
  | a :: b :: t => by
    have ih := windows_two (b :: t)
    simp only [windows, List.length_cons] at ih ⊢
    have h1 : t.length + 1 + 1 + 1 - 2 = (t.length + 1 + 1 - 2) + 1 := by omega
    rw [h1, List.range_succ_eq_map]
    simp only [List.map_cons, List.map_map, List.tail_cons, List.zip_cons_cons]
    congr 1

theorem flatMap_congr {l : List (List Char)} {f g : List Char → List (List Char)}
    (h : ∀ a ∈ l, f a = g a) : l.flatMap f = l.flatMap g := by
  induction l with
  | nil => rfl
  | cons a t ih =>
    simp only [List.flatMap_cons]
    rw [h a (List.mem_cons_self _ _), ih (fun b hb => h b (List.mem_cons_of_mem _ hb))]

theorem map_neg_sum (l : List Char) (f : Char → ℝ) :
    (l.map (fun c => -(f c))).sum = -((l.map f).sum) := by
  induction l with
  | nil => simp
  | cons a t ih =>
    simp [ih]
    ring

theorem dedup_map_sum (l : List Char) (f : Char → ℝ) :
    (l.dedup.map f).sum = ∑ c ∈ l.toFinset, f c := by
  rw [Finset.sum, List.toFinset, Multiset.toFinset_val]
  rw [Multiset.coe_dedup, Multiset.map_coe, Multiset.sum_coe]

theorem length_factor_pos (n : Nat) : 0 < length_factor n := by
  unfold length_factor
  split_ifs <;> norm_num

theorem generate_ngrams_clean (t : List Char) (n : Nat) :
    generate_ngrams (clean_text t) n = specNgrams n (clean_text t) := by
  unfold generate_ngrams specNgrams
  have hOK := clean_text_ok (t := t)
  have h1 : (clean_text t).map to_ascii_lowercase = clean_text t := by
    have hid : ∀ a ∈ clean_text t, to_ascii_lowercase a = id a :=
      fun a ha => cleanedOK_lower_fix (hOK a ha)
    rw [List.map_congr_left hid, List.map_id]
  rw [h1]
  have h2 : (clean_text t).map ngramChar = clean_text t := by
    have hid : ∀ a ∈ clean_text t, ngramChar a = id a :=
      fun a ha => cleanedOK_ngramChar (hOK a ha)
    rw [List.map_congr_left hid, List.map_id]
  rw [h2]
  show (runs (fun c => !c.isWhitespace) (clean_text t)).flatMap (fun w => windows n w) =
    (runs (fun c => isEngLetter c || c.isDigit) (clean_text t)).flatMap
      (fun tok => if n ≤ tok.length then windows n tok else [])
  rw [runs_congr (p := fun c => !c.isWhitespace) (q := fun c => isEngLetter c || c.isDigit)
    (fun c hc => cleanedOK_notWhitespace_iff (hOK c hc))]
  apply flatMap_congr
  intro tok _
  by_cases h : n ≤ tok.length
  · rw [if_pos h]
  · rw [if_neg h, windows_eq_nil (by omega)]

theorem ngram_score_eq (refset : List (List Char)) (n : Nat) (t : List Char) :
    ngram_score refset n t = specNgramScore refset n t := by
  unfold ngram_score specNgramScore
  rw [generate_ngrams_clean]
  by_cases h : specNgrams n (clean_text t) = []
  · simp [h]
  · have hl : ¬((specNgrams n (clean_text t)).length = 0) := by
      simpa [List.length_eq_zero] using h
    have hb : (specNgrams n (clean_text t)).isEmpty = false := by
      simp [List.isEmpty_iff, h]
    simp [hb, hl]

theorem transition_score_eq (t : List Char) :
    calculate_transition_score t = specTransitionScore t := by
  unfold calculate_transition_score specTransitionScore
  simp only [windows_two, List.filter_map, List.length_map]
  rfl

theorem word_ratio_eq (dict : List Char → Bool) (t : List Char) :
    english_word_ratio dict t = specWordRatio dict t := by
  unfold english_word_ratio specWordRatio
  by_cases h : words_of t = []
  · simp [h]
  · have hl : ¬((words_of t).length = 0) := by
      simpa [List.length_eq_zero] using h
    have hb : (words_of t).isEmpty = false := by
      simp [List.isEmpty_iff, h]
    simp [hb, hl]

theorem vcr_eq (t : List Char) :
    calculate_vowel_consonant_ratio (clean_text t) = specVowelFrac t := by
  unfold calculate_vowel_consonant_ratio specVowelFrac
  by_cases hk : consonant_count (clean_text t) = 0
  · by_cases hv : vowel_count (clean_text t) = 0
    · simp [hk, hv]
    · have hvq : ((vowel_count (clean_text t) : ℚ)) ≠ 0 := by
        exact_mod_cast hv
      simp [hk, hv, div_self hvq]
  · simp [hk]

theorem composite_score_eq (dict : List Char → Bool) (t : List Char) :
    composite_score dict t =
      0.40 * specWordRatio dict t + 0.25 * calculate_transition_score t +
        0.15 * trigram_score t + 0.10 * quadgram_score t + 0.10 * specVowelBonus t := by
  unfold composite_score specVowelBonus
  rw [← word_ratio_eq, ← vcr_eq]
  split_ifs
  · ring
  · ring

theorem is_gibberish_short (dict : List Char → Bool) (t : List Char) (s : Sensitivity)
    (h : (clean_text t).length < 10) :
    is_gibberish dict t s = (if (clean_text t).isEmpty then true else !(dict (clean_text t))) := by
  unfold is_gibberish
  by_cases hE : (clean_text t).isEmpty
  · simp [hE]
  · simp [hE, h]

theorem is_gibberish_long (dict : List Char → Bool) (t : List Char) (s : Sensitivity)
    (h10 : 10 ≤ (clean_text t).length) :
    is_gibberish dict t s =
      (if 0 < non_printable_count t then true
       else if english_word_ratio dict t > 0.8 then false
       else if 3 ≤ english_word_count dict t ∧ s ≠ Sensitivity.Low then false
       else if english_word_count dict t = 0 ∧ calculate_transition_score t < 0.3 ∧
               s ≠ Sensitivity.High then true
       else decide (composite_score dict t <
         base_threshold s * length_factor (clean_text t).length)) := by
  unfold is_gibberish
  have hne : clean_text t ≠ [] := by
    intro hnil
    rw [hnil] at h10
    simp at h10
  have hE : (clean_text t).isEmpty = false := by
    simp [List.isEmpty_iff, hne]
  have hS : ¬ ((clean_text t).length < 10) := by omega
  simp only [hE, Bool.false_eq_true, if_false, hS]

theorem monotone_core (dict : List Char → Bool) (t : List Char)
    (hS : 10 ≤ (clean_text t).length)
    (hN : ¬ 0 < non_printable_count t)
    (hR : ¬ english_word_ratio dict t > 0.8)
    (hZ : ¬ (english_word_count dict t = 0 ∧ calculate_transition_score t < 0.3))
    (hcomp : ¬ (composite_score dict t < 0.35 * length_factor (clean_text t).length))
    (s : Sensitivity) : is_gibberish dict t s = false := by
  have hf := length_factor_pos (clean_text t).length
  rw [is_gibberish_long dict t s hS, if_neg hN, if_neg hR]
  by_cases hC : 3 ≤ english_word_count dict t ∧ s ≠ Sensitivity.Low
  · rw [if_pos hC]
  · rw [if_neg hC]
    have h3 : ¬ (english_word_count dict t = 0 ∧ calculate_transition_score t < 0.3 ∧
        s ≠ Sensitivity.High) := by
      intro hx
      exact hZ ⟨hx.1, hx.2.1⟩
    rw [if_neg h3]
    apply decide_eq_false
    intro hlt
    apply hcomp
    have hb : base_threshold s ≤ 0.35 := by
      cases s <;> norm_num [base_threshold]
    have : base_threshold s * length_factor (clean_text t).length ≤
        0.35 * length_factor (clean_text t).length := by
      apply mul_le_mul_of_nonneg_right hb (le_of_lt hf)
    linarith

/-- C1: sensitivity is monotone.  If the classifier finds a text to be
English (not gibberish) at `Low` sensitivity, then it also does at
`Medium` and at `High`. -/
theorem sensitivity_monotone (dict : List Char → Bool) (t : List Char)
    (h : is_gibberish dict t Sensitivity.Low = false) :
    is_gibberish dict t Sensitivity.Medium = false ∧
      is_gibberish dict t Sensitivity.High = false := by
  by_cases hS : (clean_text t).length < 10
  · rw [is_gibberish_short dict t _ hS] at h
    constructor <;> rw [is_gibberish_short dict t _ hS] <;> exact h
  · push_neg at hS
    rw [is_gibberish_long dict t _ hS] at h
    by_cases hN : 0 < non_printable_count t
    · rw [if_pos hN] at h
      cases h
    · rw [if_neg hN] at h
      by_cases hR : english_word_ratio dict t > 0.8
      · constructor <;> rw [is_gibberish_long dict t _ hS, if_neg hN, if_pos hR]
      · rw [if_neg hR] at h
        have hLow : ¬ (3 ≤ english_word_count dict t ∧
            (Sensitivity.Low : Sensitivity) ≠ Sensitivity.Low) := by
          simp
        rw [if_neg hLow] at h
        by_cases hZ : english_word_count dict t = 0 ∧ calculate_transition_score t < 0.3
        · rw [if_pos ⟨hZ.1, hZ.2, by decide⟩] at h
          cases h
        · have h3 : ¬ (english_word_count dict t = 0 ∧ calculate_transition_score t < 0.3 ∧
              (Sensitivity.Low : Sensitivity) ≠ Sensitivity.High) := by
            intro hx
            exact hZ ⟨hx.1, hx.2.1⟩
          rw [if_neg h3] at h
          have hcomp : ¬ (composite_score dict t <
              0.35 * length_factor (clean_text t).length) := of_decide_eq_false h
          exact ⟨monotone_core dict t hS hN hR hZ hcomp _,
            monotone_core dict t hS hN hR hZ hcomp _⟩

/-- C7: on the long-text path (normalized length at least 10, no
non-printable character), when none of the three override rules applies,
the verdict is gibberish exactly when the composite score is strictly below
the sensitivity base threshold (Low 0.35, Medium 0.25, High 0.15) times the
length-adjustment factor of the normalized length. -/
theorem threshold_fallback (dict : List Char → Bool) (t : List Char) (s : Sensitivity)
    (h10 : 10 ≤ (clean_text t).length)
    (hnp : non_printable_count t = 0)
    (h1 : ¬ english_word_ratio dict t > 0.8)
    (h2 : ¬ (3 ≤ english_word_count dict t ∧ s ≠ Sensitivity.Low))
    (h3 : ¬ (english_word_count dict t = 0 ∧ calculate_transition_score t < 0.3 ∧
        s ≠ Sensitivity.High)) :
    (is_gibberish dict t s = true ↔
      composite_score dict t <
        (match s with
         | Sensitivity.Low => (0.35 : ℚ)
         | Sensitivity.Medium => 0.25
         | Sensitivity.High => 0.15) *
        (if (clean_text t).length ≤ 20 then (0.7 : ℚ)
         else if (clean_text t).length ≤ 50 then 0.8
         else if (clean_text t).length ≤ 100 then 0.9
         else if (clean_text t).length ≤ 200 then 1.0
         else 1.1)) := by
  rw [is_gibberish_long dict t s h10]
  have hN : ¬ 0 < non_printable_count t := by omega
  rw [if_neg hN, if_neg h1, if_neg h2, if_neg h3]
  rw [decide_eq_true_iff]
  have hbase : base_threshold s =
      (match s with
       | Sensitivity.Low => (0.35 : ℚ)
       | Sensitivity.Medium => 0.25
       | Sensitivity.High => 0.15) := by
    cases s <;> rfl
  have hlen : length_factor (clean_text t).length =
      (if (clean_text t).length ≤ 20 then (0.7 : ℚ)
       else if (clean_text t).length ≤ 50 then 0.8
       else if (clean_text t).length ≤ 100 then 0.9
       else if (clean_text t).length ≤ 200 then 1.0
       else 1.1) := rfl
  rw [hbase, hlen]

/-- Helper: the word-ratio override.  On the long path with no
non-printable character, a word ratio strictly above `0.8` forces the
English verdict at every sensitivity. -/
theorem gibberish_false_of_ratio (dict : List Char → Bool) (t : List Char) (s : Sensitivity)
    (h10 : 10 ≤ (clean_text t).length)
    (hnp : non_printable_count t = 0)
    (hr : english_word_ratio dict t > 0.8) :
    is_gibberish dict t s = false := by
  rw [is_gibberish_long dict t s h10]
  have hN : ¬ 0 < non_printable_count t := by omega
  rw [if_neg hN, if_pos hr]

/-- C3 (amended): if the dictionary recognizes only space-free words and
the original text contains a character strictly below `U+0020` other than
tab, newline and carriage return, then the verdict is gibberish at every
sensitivity. -/
theorem control_dominance_amended (dict : List Char → Bool) (t : List Char) (s : Sensitivity)
    (hdict : ∀ w, dict w = true → ' ' ∉ w)
    (c : Char) (hc : c ∈ t) (hlt : c < ' ')
    (hn : c ≠ '\n') (hr : c ≠ '\r') (hb : c ≠ '\t') :
    is_gibberish dict t s = true := by
  have hcn : c.toNat < 32 := charLt_iff.mp hlt
  have hsp : cleanChar c = ' ' := by
    have hL : (isEngLetter c || c.isDigit) = false := by
      rw [Bool.or_eq_false_iff]
      constructor
      · rw [Bool.eq_false_iff]
        intro hx
        rcases engLetter_iff.mp hx with hx | hx <;> omega
      · rw [Bool.eq_false_iff]
        intro hx
        have := isDigit_iff.mp hx
        omega
    rw [cleanChar, if_neg (by simp [hL])]
    split <;> rfl
  have hmem : (' ' : Char) ∈ clean_text t := by
    rw [← hsp]
    exact List.mem_map_of_mem cleanChar hc
  by_cases hS : (clean_text t).length < 10
  · rw [is_gibberish_short dict t s hS]
    have hne : (clean_text t).isEmpty = false := by
      have : clean_text t ≠ [] := List.ne_nil_of_mem hmem
      simp [List.isEmpty_iff, this]
    rw [hne]
    simp only [Bool.false_eq_true, if_false]
    have hd : dict (clean_text t) = false := by
      rw [Bool.eq_false_iff]
      intro hx
      exact hdict _ hx hmem
    rw [hd]
    rfl
  · push_neg at hS
    rw [is_gibberish_long dict t s hS]
    have hnp : 0 < non_printable_count t := by
      have hmemf : c ∈ t.filter (fun c => decide (c < ' ') && !(c == '\n') &&
          !(c == '\r') && !(c == '\t')) := by
        rw [List.mem_filter]
        refine ⟨hc, ?_⟩
        simp [hlt, hn, hr, hb]
      unfold non_printable_count
      have hne := List.ne_nil_of_mem hmemf
      have hz : (t.filter (fun c => decide (c < ' ') && !(c == '\n') &&
          !(c == '\r') && !(c == '\t'))).length ≠ 0 := by
        simpa [List.length_eq_zero] using hne
      omega
    rw [if_pos hnp]

/-- C5: if the normalized text is shorter than 10 characters, the verdict
is `true` when it is empty, and otherwise is gibberish exactly when the
whole normalized string is not a dictionary word, all scoring skipped.
In particular the empty input is always gibberish. -/
theorem short_input_path (dict : List Char → Bool) (t : List Char) (s : Sensitivity)
    (h : (clean_text t).length < 10) :
    is_gibberish dict t s = (if (clean_text t).isEmpty then true else !(dict (clean_text t))) :=
  is_gibberish_short dict t s h

/-- Witness for C5 at the empty input: the normalized form is empty, hence
shorter than 10, and the verdict is gibberish. -/
theorem short_input_path_witness :
    (clean_text ([] : List Char)).length < 10 ∧
      is_gibberish (fun _ => false) ([] : List Char) Sensitivity.Low = true :=
  ⟨by decide, (short_input_path (fun _ => false) [] Sensitivity.Low (by decide)).trans (by decide)⟩

/-- C10: on inputs whose normalized form is shorter than 10 characters the
sensitivity argument cannot influence the verdict. -/
theorem short_noninterference (dict : List Char → Bool) (t : List Char)
    (s1 s2 : Sensitivity) (h : (clean_text t).length < 10) :
    is_gibberish dict t s1 = is_gibberish dict t s2 := by
  rw [is_gibberish_short dict t s1 h, is_gibberish_short dict t s2 h]

/-- Witness for C10: a five-character input gets the same verdict at `Low`
and at `High`. -/
theorem short_noninterference_witness :
    (clean_text ("hello".toList)).length < 10 ∧
      is_gibberish (fun _ => false) ("hello".toList) Sensitivity.Low =
        is_gibberish (fun _ => false) ("hello".toList) Sensitivity.High :=
  ⟨by decide, short_noninterference (fun _ => false) ("hello".toList)
    Sensitivity.Low Sensitivity.High (by decide)⟩

/-- C6: the composite score is the weighted sum
`0.40 · word_ratio + 0.25 · transition + 0.15 · trigram + 0.10 · quadgram
+ 0.10 · vowel_consonant_bonus`, with the word ratio as recognized tokens
over total tokens (0 without tokens) and the bonus equal to 1 exactly when
the vowel fraction of the normalized text lies in `[0.3, 0.7]`. -/
theorem composite_formula (dict : List Char → Bool) (t : List Char) :
    composite_score dict t =
      0.40 * specWordRatio dict t + 0.25 * calculate_transition_score t +
        0.15 * trigram_score t + 0.10 * quadgram_score t + 0.10 * specVowelBonus t :=
  composite_score_eq dict t

/-- C8 counterexample for `n = 2`: on `"th x"` the program's bigram signal
(the transition score, the only use of the bigram reference set) is `1/3`,
while the claimed per-token sliding-window extraction scores `1`. -/
theorem ngram_spec_cex :
    calculate_transition_score ("th x".toList) = 1/3 ∧
      specNgramScore COMMON_CHAR_PAIRS 2 ("th x".toList) = 1 ∧
      calculate_transition_score ("th x".toList) ≠
        specNgramScore COMMON_CHAR_PAIRS 2 ("th x".toList) := by
  have h1 : calculate_transition_score ("th x".toList) = 1/3 := by
    simp only [calculate_transition_score]
    rw [if_neg (by decide)]
    rw [show ((("th x".toList.map to_ascii_lowercase).zip
        ("th x".toList.map to_ascii_lowercase).tail).filter
        (fun p => decide ([p.1, p.2] ∈ COMMON_CHAR_PAIRS))).length = 1 from by decide]
    rw [show (("th x".toList.map to_ascii_lowercase).length - 1 : Nat) = 3 from by decide]
    norm_num
  have h2 : specNgramScore COMMON_CHAR_PAIRS 2 ("th x".toList) = 1 := by
    simp only [specNgramScore]
    rw [if_neg (by decide)]
    rw [show ((specNgrams 2 (clean_text ("th x".toList))).filter
        (fun g => decide (g ∈ COMMON_CHAR_PAIRS))).length = 1 from by decide]
    rw [show (specNgrams 2 (clean_text ("th x".toList))).length = 1 from by decide]
    norm_num
  refine ⟨h1, h2, ?_⟩
  rw [h1, h2]
  norm_num

/-- C8 (amended): the extractor does emit, for every `n`, exactly the
sliding windows of the maximal letter/digit runs of the normalized string,
and the trigram and quadgram scores are the claimed reference-set
fractions; the bigram reference set, however, enters through the
transition score, the fraction of all adjacent character pairs of the
lowercased text (word boundaries included) that lie in the set. -/
theorem ngram_spec_amended :
    (∀ (t : List Char) (n : Nat),
        generate_ngrams (clean_text t) n = specNgrams n (clean_text t)) ∧
    (∀ t : List Char, trigram_score t = specNgramScore COMMON_TRIGRAMS 3 t) ∧
    (∀ t : List Char, quadgram_score t = specNgramScore COMMON_QUADGRAMS 4 t) ∧
    (∀ t : List Char, calculate_transition_score t = specTransitionScore t) :=
  ⟨generate_ngrams_clean, fun t => ngram_score_eq _ _ t,
    fun t => ngram_score_eq _ _ t, transition_score_eq⟩

/-- C4 counterexample: the normalizer does not keep `'@'`; it replaces it
by a separator space, while the claim's normalizer keeps it. -/
theorem normalizer_cex :
    clean_text ("@".toList) = " ".toList ∧
      specClean ("@".toList) = "@".toList ∧
      clean_text ("@".toList) ≠ specClean ("@".toList) :=
  ⟨by decide, by decide, by decide⟩

/-- C4 (amended): the normalizer lowercases ASCII letters and digits and
maps every other character, whitespace and punctuation and symbols alike,
to a separator space; consequently the normalized text consists only of
spaces, lowercase letters and digits. -/
theorem normalizer_amended (t : List Char) :
    clean_text t =
      t.map (fun c => if isEngLetter c || c.isDigit then to_ascii_lowercase c else ' ') ∧
    (clean_text t).all
      (fun d => d == ' ' || ('a' ≤ d && d ≤ 'z') || ('0' ≤ d && d ≤ '9')) = true := by
  constructor
  · unfold clean_text
    apply List.map_congr_left
    intro a _
    unfold cleanChar
    by_cases h : (isEngLetter a || a.isDigit) = true
    · rw [if_pos h, if_pos h]
    · rw [if_neg h, if_neg h]
      split <;> rfl
  · rw [List.all_eq_true]
    intro d hd
    have hOK := clean_text_ok (t := t) d hd
    simp only [Bool.or_eq_true, Bool.and_eq_true, decide_eq_true_iff, beq_iff_eq]
    rcases hOK with h | h | h
    · left; left; exact h
    · left; right
      constructor
      · exact charLe_iff.mpr (show (97 : Nat) ≤ d.toNat by omega)
      · exact charLe_iff.mpr (show d.toNat ≤ (122 : Nat) by omega)
    · right
      constructor
      · exact charLe_iff.mpr (show (48 : Nat) ≤ d.toNat by omega)
      · exact charLe_iff.mpr (show d.toNat ≤ (57 : Nat) by omega)

/-- C2 (amended): if the normalized text has length at least 10, the
original text has no non-printable character, and strictly more than 80
percent of the tokens are recognized by the dictionary, then the verdict is
not gibberish at every sensitivity. -/
theorem dictionary_dominance_amended (dict : List Char → Bool) (t : List Char) (s : Sensitivity)
    (h10 : 10 ≤ (clean_text t).length)
    (hnp : non_printable_count t = 0)
    (hr : english_word_ratio dict t > 0.8) :
    is_gibberish dict t s = false :=
  gibberish_false_of_ratio dict t s h10 hnp hr

/-!  Evaluation helpers: they turn kernel-computable `Nat` facts about a
concrete input into the rational value of each score, since rational
arithmetic itself does not reduce in the kernel. -/

theorem ratio_eval (dict : List Char → Bool) (t : List Char) (c n : Nat)
    (hc : english_word_count dict t = c) (hn : (words_of t).length = n) (hne : n ≠ 0) :
    english_word_ratio dict t = (c : ℚ) / (n : ℚ) := by
  unfold english_word_ratio
  have hnil : words_of t ≠ [] := by
    intro h0
    rw [h0] at hn
    simp at hn
    exact hne hn.symm
  have hb : (words_of t).isEmpty = false := by
    simp [List.isEmpty_iff, hnil]
  rw [hb]
  simp only [Bool.false_eq_true, if_false]
  rw [hc, hn]

theorem transition_eval (t : List Char) (v n : Nat)
    (hv : (((t.map to_ascii_lowercase).zip (t.map to_ascii_lowercase).tail).filter
      (fun p => decide ([p.1, p.2] ∈ COMMON_CHAR_PAIRS))).length = v)
    (hn : (t.map to_ascii_lowercase).length = n) (h2 : ¬ n < 2) :
    calculate_transition_score t = (v : ℚ) / ((n - 1 : Nat) : ℚ) := by
  simp only [calculate_transition_score]
  rw [hn, if_neg h2, hv]

theorem ngram_eval (refset : List (List Char)) (n : Nat) (t : List Char) (v g : Nat)
    (hv : ((generate_ngrams (clean_text t) n).filter (fun x => decide (x ∈ refset))).length = v)
    (hg : (generate_ngrams (clean_text t) n).length = g) (hgne : g ≠ 0) :
    ngram_score refset n t = (v : ℚ) / (g : ℚ) := by
  simp only [ngram_score]
  have hnil : generate_ngrams (clean_text t) n ≠ [] := by
    intro h0
    rw [h0] at hg
    simp at hg
    exact hgne hg.symm
  have hb : (generate_ngrams (clean_text t) n).isEmpty = false := by
    simp [List.isEmpty_iff, hnil]
  rw [hb]
  simp only [Bool.false_eq_true, if_false]
  rw [hv, hg]

theorem vc_eval (t : List Char) (v k : Nat)
    (hv : vowel_count t = v) (hk : consonant_count t = k) (hkne : k ≠ 0) :
    calculate_vowel_consonant_ratio t = (v : ℚ) / ((v + k : Nat) : ℚ) := by
  simp only [calculate_vowel_consonant_ratio]
  rw [hv, hk, if_neg hkne]

/-!  Concrete inputs for witnesses and counterexamples. -/

/-- A dictionary recognizing the eight words of the fox pangram; a concrete
instance of the Lexical Oracle. -/
def dFox : List Char → Bool := fun w =>
  decide (w ∈ ["the", "quick", "brown", "fox", "jumps", "over", "lazy", "dog"].map String.toList)

def tFox : List Char := "the quick brown fox jumps over the lazy dog".toList

theorem tFox_ratio : english_word_ratio dFox tFox = 1 := by
  rw [ratio_eval dFox tFox 9 9 (by decide) (by decide) (by norm_num)]
  norm_num

theorem tFox_low : is_gibberish dFox tFox Sensitivity.Low = false := by
  apply gibberish_false_of_ratio dFox tFox Sensitivity.Low (by decide) (by decide)
  rw [tFox_ratio]
  norm_num

/-- Witness for C1 at the fox pangram: English at `Low`, hence English at
`Medium` and `High`. -/
theorem sensitivity_monotone_witness :
    is_gibberish dFox tFox Sensitivity.Low = false ∧
      (is_gibberish dFox tFox Sensitivity.Medium = false ∧
        is_gibberish dFox tFox Sensitivity.High = false) :=
  ⟨tFox_low, sensitivity_monotone dFox tFox tFox_low⟩

/-- Witness for the amended C2 at the fox pangram. -/
theorem dictionary_dominance_amended_witness :
    10 ≤ (clean_text tFox).length ∧ non_printable_count tFox = 0 ∧
      english_word_ratio dFox tFox > 0.8 ∧
      is_gibberish dFox tFox Sensitivity.Medium = false :=
  ⟨by decide, by decide, by rw [tFox_ratio]; norm_num,
    dictionary_dominance_amended dFox tFox Sensitivity.Medium (by decide) (by decide)
      (by rw [tFox_ratio]; norm_num)⟩

/-- Four 24-`z` tokens (recognized by `dZee`) and one 5-`q` token: exactly
80 percent of the five tokens are dictionary words. -/
def zTok : List Char := List.replicate 24 'z'

def dZee : List Char → Bool := fun w => decide (w = zTok)

def zText : List Char :=
  zTok ++ [' '] ++ zTok ++ [' '] ++ zTok ++ [' '] ++ zTok ++ [' '] ++ "qqqqq".toList

theorem zText_ratio : english_word_ratio dZee zText = 4/5 := by
  rw [ratio_eval dZee zText 4 5 (by decide) (by decide) (by norm_num)]
  norm_num

theorem zText_composite : composite_score dZee zText = 8/25 := by
  unfold composite_score
  rw [zText_ratio]
  rw [transition_eval zText 0 105 (by decide) (by decide) (by norm_num)]
  rw [show trigram_score zText = ngram_score COMMON_TRIGRAMS 3 zText from rfl,
    ngram_eval COMMON_TRIGRAMS 3 zText 0 91 (by decide) (by decide) (by norm_num)]
  rw [show quadgram_score zText = ngram_score COMMON_QUADGRAMS 4 zText from rfl,
    ngram_eval COMMON_QUADGRAMS 4 zText 0 86 (by decide) (by decide) (by norm_num)]
  rw [vc_eval (clean_text zText) 0 101 (by decide) (by decide) (by norm_num)]
  rw [if_neg (by norm_num)]
  norm_num

theorem zText_low : is_gibberish dZee zText Sensitivity.Low = true := by
  rw [is_gibberish_long dZee zText Sensitivity.Low (by decide)]
  rw [if_neg (by decide : ¬ 0 < non_printable_count zText)]
  rw [if_neg (show ¬ english_word_ratio dZee zText > 0.8 by rw [zText_ratio]; norm_num)]
  rw [if_neg (show ¬ (3 ≤ english_word_count dZee zText ∧
      (Sensitivity.Low : Sensitivity) ≠ Sensitivity.Low) by simp)]
  rw [if_neg (show ¬ (english_word_count dZee zText = 0 ∧
      calculate_transition_score zText < 0.3 ∧
      (Sensitivity.Low : Sensitivity) ≠ Sensitivity.High) by
    intro hx
    rw [show english_word_count dZee zText = 4 from by decide] at hx
    exact absurd hx.1 (by norm_num))]
  apply decide_eq_true
  rw [zText_composite, show (clean_text zText).length = 105 from by decide]
  rw [show base_threshold Sensitivity.Low = 0.35 from rfl]
  rw [show length_factor 105 = 1.0 from by norm_num [length_factor]]
  norm_num

/-- C3 counterexample: `U+007F` (DEL) is a Unicode control character other
than tab, newline and carriage return, yet a pangram carrying it is
classified as English at `Medium` sensitivity: the code only tests for
characters strictly below `U+0020`. -/
def delText : List Char := tFox ++ [Char.ofNat 127]

theorem delText_english : is_gibberish dFox delText Sensitivity.Medium = false := by
  apply gibberish_false_of_ratio dFox delText Sensitivity.Medium (by decide) (by decide)
  rw [ratio_eval dFox delText 9 9 (by decide) (by decide) (by norm_num)]
  norm_num

/-- C2 counterexample: exactly 80 percent of the five tokens of `zText`
are dictionary words (ratio `4/5 ≥ 0.8`), yet the text is classified as
gibberish at `Low` sensitivity, because the code's override requires the
ratio to be strictly above `0.8`. -/
theorem dictionary_dominance_cex :
    english_word_ratio dZee zText = 4/5 ∧ ((4 : ℚ)/5 ≥ 0.8) ∧
      is_gibberish dZee zText Sensitivity.Low = true :=
  ⟨zText_ratio, by norm_num, zText_low⟩

/-- C3 counterexample: a text containing the control character DEL
(`U+007F`, not tab, newline or carriage return) that the classifier
nevertheless accepts as English. -/
theorem control_dominance_cex :
    unicodeControl (Char.ofNat 127) = true ∧
      Char.ofNat 127 ≠ '\t' ∧ Char.ofNat 127 ≠ '\n' ∧ Char.ofNat 127 ≠ '\r' ∧
      Char.ofNat 127 ∈ delText ∧
      is_gibberish dFox delText Sensitivity.Medium = false :=
  ⟨by decide, by decide, by decide, by decide, by decide, delText_english⟩

/-- Witness for the amended C3: a short input carrying the control
character `U+0001` is gibberish. -/
def ctlText : List Char := "hello".toList ++ [Char.ofNat 1]

theorem control_dominance_amended_witness :
    Char.ofNat 1 ∈ ctlText ∧ (Char.ofNat 1 < ' ') ∧
      is_gibberish (fun _ => false) ctlText Sensitivity.Medium = true :=
  ⟨by decide, by decide,
    control_dominance_amended (fun _ => false) ctlText Sensitivity.Medium
      (fun _ h => nomatch h) (Char.ofNat 1) (by decide) (by decide)
      (by decide) (by decide) (by decide)⟩

/-- Witness for C7: ten `z`s with an empty dictionary at `High`
sensitivity reach the fallback, and the verdict is the threshold
comparison. -/
def zTen : List Char := List.replicate 10 'z'

theorem threshold_fallback_witness :
    10 ≤ (clean_text zTen).length ∧
      (is_gibberish (fun _ => false) zTen Sensitivity.High = true ↔
        composite_score (fun _ => false) zTen <
          (match Sensitivity.High with
           | Sensitivity.Low => (0.35 : ℚ)
           | Sensitivity.Medium => 0.25
           | Sensitivity.High => 0.15) *
          (if (clean_text zTen).length ≤ 20 then (0.7 : ℚ)
           else if (clean_text zTen).length ≤ 50 then 0.8
           else if (clean_text zTen).length ≤ 100 then 0.9
           else if (clean_text zTen).length ≤ 200 then 1.0
           else 1.1)) :=
  ⟨by decide,
    threshold_fallback (fun _ => false) zTen Sensitivity.High (by decide) (by decide)
      (by
        rw [ratio_eval (fun _ => false) zTen 0 1 (by decide) (by decide) (by norm_num)]
        norm_num)
      (by
        intro hx
        rw [show english_word_count (fun _ => false) zTen = 0 from by decide] at hx
        exact absurd hx.1 (by norm_num))
      (fun hx => hx.2.2 rfl)⟩

/-- C9 (amended): the entropy the code computes equals the Shannon entropy
of the lowercased input, divided by 5 and capped at 1. -/
theorem entropy_amended (t : List Char) :
    calculate_entropy t = min (shannonEntropy (t.map to_ascii_lowercase) / 5) 1 := by
  simp only [calculate_entropy, shannonEntropy]
  by_cases h : (t.map to_ascii_lowercase).length = 0
  · rw [if_pos h]
    have hnil : t.map to_ascii_lowercase = [] := List.length_eq_zero.mp h
    rw [hnil]
    simp
  · rw [if_neg h]
    rw [map_neg_sum ((t.map to_ascii_lowercase).dedup)
      (fun c => (((t.map to_ascii_lowercase).count c : ℝ) /
          ((t.map to_ascii_lowercase).length : ℝ)) *
        Real.logb 2 (((t.map to_ascii_lowercase).count c : ℝ) /
          ((t.map to_ascii_lowercase).length : ℝ)))]
    rw [dedup_map_sum]

/-- C9 counterexample: on `"Aa"` the code reports entropy `0` (it
lowercases first, collapsing the two distinct characters), while the
Shannon entropy of the original input is `1` bit per character; the code
value is also rescaled, not raw. -/
theorem entropy_cex :
    calculate_entropy ("Aa".toList) = 0 ∧ shannonEntropy ("Aa".toList) = 1 ∧
      calculate_entropy ("Aa".toList) ≠ shannonEntropy ("Aa".toList) := by
  have h1 : calculate_entropy ("Aa".toList) = 0 := by
    simp only [calculate_entropy]
    rw [show ("Aa".toList.map to_ascii_lowercase) = "aa".toList from by decide]
    rw [if_neg (by decide)]
    rw [show ("aa".toList.dedup) = ['a'] from by decide]
    simp only [List.map_cons, List.map_nil, List.sum_cons, List.sum_nil]
    simp only [show (List.count 'a' ("aa".toList)) = 2 from by decide,
      show ("aa".toList.length) = 2 from by decide]
    have hz : (-(((2 : ℕ) : ℝ) / ((2 : ℕ) : ℝ) *
        Real.logb 2 (((2 : ℕ) : ℝ) / ((2 : ℕ) : ℝ))) + 0) = 0 := by
      norm_num [Real.logb_one]
    rw [hz, zero_div]
    exact min_eq_left (by norm_num)
  have h2 : shannonEntropy ("Aa".toList) = 1 := by
    simp only [shannonEntropy]
    rw [show ("Aa".toList.toFinset) = {'A', 'a'} from by decide]
    rw [show ("Aa".toList.length) = 2 from by decide]
    rw [Finset.sum_insert (by decide), Finset.sum_singleton]
    simp only [show (List.count 'A' ("Aa".toList)) = 1 from by decide,
      show (List.count 'a' ("Aa".toList)) = 1 from by decide]
    push_cast
    rw [show ((1 : ℝ)/2) = (2 : ℝ)⁻¹ from by norm_num]
    rw [Real.logb_inv]
    rw [Real.logb_self_eq_one (by norm_num)]
    norm_num
  exact ⟨h1, h2, by rw [h1, h2]; norm_num⟩

end EnglishOrNot
